import Mathlib

/-!
Shallow embedding of `scrape_nature.py` (Nature.com article scraper) and
verification of the frozen claims about it.  Strings are modelled as Lean
`String`s (lists of characters); the character-class predicates model the
ASCII behaviour of Python's `str` methods and `re` patterns, which is the
range the scraper's data actually inhabits.
-/

namespace NatureScraper

/-! ## Character classes (Python `string.punctuation`, `\s`, `[A-Za-z0-9_-]`) -/

/-- Python whitespace as stripped by `str.strip()` and matched by `\s`
(ASCII range: space, `\t`, `\n`, `\v`, `\f`, `\r`, and `\x1c`-`\x1f`). -/
def isSpaceChar (c : Char) : Bool :=
  decide (c.toNat = 32) || (decide (9 ≤ c.toNat) && decide (c.toNat ≤ 13))
    || (decide (28 ≤ c.toNat) && decide (c.toNat ≤ 31))

/-- Membership in Python's `string.punctuation`
(ASCII 33-47, 58-64, 91-96, 123-126). -/
def isPunctChar (c : Char) : Bool :=
  (decide (33 ≤ c.toNat) && decide (c.toNat ≤ 47))
    || (decide (58 ≤ c.toNat) && decide (c.toNat ≤ 64))
    || (decide (91 ≤ c.toNat) && decide (c.toNat ≤ 96))
    || (decide (123 ≤ c.toNat) && decide (c.toNat ≤ 126))

/-- ASCII alphanumeric: `[A-Za-z0-9]`. -/
def isAsciiAlnum (c : Char) : Bool :=
  (decide (48 ≤ c.toNat) && decide (c.toNat ≤ 57))
    || (decide (65 ≤ c.toNat) && decide (c.toNat ≤ 90))
    || (decide (97 ≤ c.toNat) && decide (c.toNat ≤ 122))

/-- The characters kept by `re.sub(r"[^A-Za-z0-9_\-]+", "", ...)`. -/
def isSafeChar (c : Char) : Bool :=
  isAsciiAlnum c || decide (c.toNat = 95) || decide (c.toNat = 45)

/-- ASCII upper-casing of one character (Python `str.upper` on the
ASCII strings the sanitizer feeds it). -/
def upperChar (c : Char) : Char :=
  if 97 ≤ c.toNat ∧ c.toNat ≤ 122 then Char.ofNat (c.toNat - 32) else c

/-- ASCII lower-casing of one character (Python `str.lower`). -/
def lowerChar (c : Char) : Char :=
  if 65 ≤ c.toNat ∧ c.toNat ≤ 90 then Char.ofNat (c.toNat + 32) else c

def pyUpperL (l : List Char) : List Char := l.map upperChar

def pyLowerL (l : List Char) : List Char := l.map lowerChar

/-! ## Python string primitives -/

/-- Python `str.strip()` on a character list. -/
def stripChars (l : List Char) : List Char :=
  ((l.dropWhile isSpaceChar).reverse.dropWhile isSpaceChar).reverse

/-- Worker for whitespace collapsing; the flag records whether the previous
kept character came from a whitespace run. -/
def collapseAux : Bool → List Char → List Char
  | _, [] => []
  | prevSpace, c :: cs =>
    if isSpaceChar c then
      if prevSpace then collapseAux true cs else ' ' :: collapseAux true cs
    else c :: collapseAux false cs

/-- Python `re.sub(r"\s+", " ", s)`: every whitespace run becomes one space. -/
def collapseWs (l : List Char) : List Char := collapseAux false l

/-- Python `str.rstrip("_")` on a character list. -/
def rstripUnderscore (l : List Char) : List Char :=
  (l.reverse.dropWhile (fun c => decide (c.toNat = 95))).reverse

/-- Python `str.strip()` on a `String`. -/
def pyStrip (s : String) : String := String.mk (stripChars s.data)

/-- Python `str.upper()` on a `String`. -/
def pyUpper (s : String) : String := String.mk (pyUpperL s.data)

/-- Python `str.lower()` on a `String`. -/
def pyLower (s : String) : String := String.mk (pyLowerL s.data)

/-! ## The filename sanitizer (`sanitize_filename`, lines 35-44) -/

/-- The `WINDOWS_RESERVED` set from line 18 of the source. -/
def WINDOWS_RESERVED : List String :=
  ["CON", "PRN", "AUX", "NUL",
   "COM1", "COM2", "COM3", "COM4", "COM5", "COM6", "COM7", "COM8", "COM9",
   "LPT1", "LPT2", "LPT3", "LPT4", "LPT5", "LPT6", "LPT7", "LPT8", "LPT9"]

/-- Character-list core of `sanitize_filename`, mirroring the source line by
line: strip, collapse whitespace, delete punctuation, spaces to underscores,
keep safe characters, `untitled` default, reserved-name wrapping, truncation
and trailing-underscore strip. -/
def sanitizeCore (maxLen : Nat) (title : List Char) : List Char :=
  let b1 := stripChars title
  let b2 := collapseWs b1
  let b3 := b2.filter (fun c => !(isPunctChar c))
  let b4 := b3.map (fun c => if c = ' ' then '_' else c)
  let b5 := b4.filter isSafeChar
  let b6 := if b5 = [] then "untitled".data else b5
  let b7 := if String.mk (pyUpperL b6) ∈ WINDOWS_RESERVED
            then ('_' :: b6) ++ ['_'] else b6
  rstripUnderscore (b7.take maxLen)

/-- `sanitize_filename(title, max_len=120)` from the source. -/
def sanitize_filename (title : String) (maxLen : Nat := 120) : String :=
  String.mk (sanitizeCore maxLen title.data)

example : sanitize_filename "a b" = "a_b" := by decide
example : sanitize_filename "a_b" = "ab" := by decide
example : sanitize_filename ". ." = "" := by decide
example : sanitize_filename "CON ." = "CON" := by decide
example : sanitize_filename "con" = "_con" := by decide
example : sanitize_filename "  Hello,  World!  " = "Hello_World" := by decide
example : sanitize_filename "" = "untitled" := by decide

/-! ## Document model

`extract_title` and `extract_teaser_or_body` interact with BeautifulSoup only
through `select_one(selector)`, `find("title")`, `tag.get(attr)`,
`tag.get_text(strip=True)`, `tag.get_text(" ", strip=True)` and
`tag.select("p")`.  A document is therefore embedded as an oracle for those
queries: a `Tag` carries its attribute list, its two `get_text` renderings
and its paragraph list, and a `Soup` answers `select_one` and the
`find("title")` lookup. -/

inductive Tag where
  | mk (attrs : List (String × String)) (text : String) (textSp : String)
       (ps : List Tag)

/-- Attribute list of a tag. -/
def Tag.attrs : Tag → List (String × String)
  | .mk a _ _ _ => a

/-- Result of `tag.get_text(strip=True)`. -/
def Tag.text : Tag → String
  | .mk _ t _ _ => t

/-- Result of `tag.get_text(" ", strip=True)`. -/
def Tag.textSp : Tag → String
  | .mk _ _ t _ => t

/-- Result of `tag.select("p")`. -/
def Tag.ps : Tag → List Tag
  | .mk _ _ _ p => p

/-- BeautifulSoup `tag.get(attr)`: the attribute's value, or `none`. -/
def Tag.get (t : Tag) (a : String) : Option String := t.attrs.lookup a

structure Soup where
  /-- Oracle for `soup.select_one(selector)`. -/
  selectOne : String → Option Tag
  /-- Oracle for `soup.find("title")`. -/
  findTitle : Option Tag

/-! ## Title extraction (`extract_title`, lines 46-78) -/

/-- The meta-tag selector/attribute pairs tried first by `extract_title`. -/
def metaTitleSelectors : List (String × String) :=
  [("meta[property=\"og:title\"]", "content"),
   ("meta[name=\"dc.title\"]", "content"),
   ("meta[name=\"citation_title\"]", "content"),
   ("meta[name=\"twitter:title\"]", "content")]

/-- One iteration of the meta-tag loop: a candidate is produced when the tag
exists and its stripped attribute value is non-empty and not the literal
string `content` (case-insensitively). -/
def metaTitleCandidate (soup : Soup) (p : String × String) : Option String :=
  match soup.selectOne p.1 with
  | none => none
  | some tag =>
    let val := pyStrip ((tag.get p.2).getD "")
    if val = "" then none
    else if pyLower val = "content" then none
    else some val

/-- The H1 selectors tried next by `extract_title`. -/
def h1Selectors : List String :=
  ["h1.c-article-title",
   "h1[data-test='article-title']",
   "header.c-article-header h1",
   "article h1"]

/-- One iteration of the H1 loop: a candidate is produced when the element
exists and its `get_text(" ", strip=True)` is non-empty. -/
def h1Candidate (soup : Soup) (sel : String) : Option String :=
  match soup.selectOne sel with
  | none => none
  | some h1 => if h1.textSp = "" then none else some h1.textSp

/-- Does the Python pattern `.*$` (no DOTALL) match this whole tail?  It does
iff the tail has no newline, or has exactly one newline as its last
character. -/
def reTailOk (l : List Char) : Bool :=
  l.all (fun c => !(c = '\n')) ||
    (match l.reverse with
     | '\n' :: rest => rest.all (fun c => !(c = '\n'))
     | _ => false)

/-- Does `\s*\|\s*Nature.*$` match the whole list (anchored at its head)?
`\s*` before a non-whitespace literal is deterministic greed. -/
def natMatch (l : List Char) : Bool :=
  match l.dropWhile isSpaceChar with
  | c :: r =>
    if c = '|' then
      let r1 := r.dropWhile isSpaceChar
      if r1.take 6 = "Nature".data then reTailOk (r1.drop 6) else false
    else false
  | [] => false

/-- Leftmost-match deletion for `re.sub(r"\s*\|\s*Nature.*$", "", txt)`:
scan left to right and cut at the first position where the anchored pattern
matches through to the end. -/
def subNature : List Char → List Char
  | [] => []
  | c :: cs => if natMatch (c :: cs) then [] else c :: subNature cs

/-- `re.sub(r"\s*\|\s*Nature.*$", "", txt)` on a `String`. -/
def stripNatureSuffix (s : String) : String := String.mk (subNature s.data)

example : stripNatureSuffix "Foo Bar | Nature Reviews" = "Foo Bar" := by decide
example : stripNatureSuffix "No Title" = "No Title" := by decide
example : stripNatureSuffix "| Nature" = "" := by decide

/-- `extract_title(soup)` from the source: meta tags, then scoped headings,
then the `<title>` element (default `"No Title"` when absent) with the
`| Nature...` suffix stripped. -/
def extract_title (soup : Soup) : String :=
  match metaTitleSelectors.findSome? (metaTitleCandidate soup) with
  | some v => v
  | none =>
    match h1Selectors.findSome? (h1Candidate soup) with
    | some v => v
    | none =>
      let txt := match soup.findTitle with
        | some t => t.text
        | none => "No Title"
      stripNatureSuffix txt

/-! ## Body/teaser extraction (`extract_teaser_or_body`, lines 80-127) -/

/-- The meta-description selector/attribute pairs tried for the teaser. -/
def metaDescSelectors : List (String × String) :=
  [("meta[property='og:description']", "content"),
   ("meta[name='description']", "content")]

/-- One iteration of the meta-description loop: the loop breaks on the first
tag whose attribute is present, non-empty, and non-empty after stripping. -/
def teaserMetaCandidate (soup : Soup) (p : String × String) : Option String :=
  match soup.selectOne p.1 with
  | none => none
  | some tag =>
    match tag.get p.2 with
    | none => none
    | some v =>
      if v = "" then none
      else if pyStrip v = "" then none
      else some (pyStrip v)

/-- The comma selector used for the visible-teaser fallback. -/
def visibleTeaserSelector : String := "p.article__teaser, div.c-article-teaser p"

/-- The teaser value after both teaser tiers (empty string when neither
yields anything, matching the `teaser = ""` initialisation). -/
def teaserOf (soup : Soup) : String :=
  match metaDescSelectors.findSome? (teaserMetaCandidate soup) with
  | some t => t
  | none =>
    match soup.selectOne visibleTeaserSelector with
    | some tag => tag.text
    | none => ""

/-- The ordered body-container selectors. -/
def bodySelectors : List String :=
  ["div#content div.c-article-body",
   "div.c-article-body",
   "div[data-component='article-body']",
   "article div.article-item__body"]

/-- One iteration of the body loop: when the container matches, its
paragraphs' texts are collected and the empty ones dropped; the loop breaks
only when the remaining list is non-empty. -/
def bodyCandidate (soup : Soup) (sel : String) : Option (List String) :=
  match soup.selectOne sel with
  | none => none
  | some body =>
    let parts := (body.ps.map Tag.textSp).filter (fun p => !(p = ""))
    if parts = [] then none else some parts

/-- The `body_parts` value after the body loop (empty when no selector both
matched and yielded non-empty paragraphs). -/
def bodyPartsOf (soup : Soup) : List String :=
  (bodySelectors.findSome? (bodyCandidate soup)).getD []

/-- The metadata mapping built at the end of `extract_teaser_or_body`:
`published` from the first date meta tag with a truthy `content`, `type`
from the `dc.type` meta tag or the visible type label. -/
def typeTagOf (soup : Soup) : Option Tag :=
  match soup.selectOne "meta[name=\"dc.type\"]" with
  | some t => some t
  | none => soup.selectOne "span[data-test=\"article.type\"]"

def pubTagOf (soup : Soup) : Option Tag :=
  match soup.selectOne "meta[name=\"dc.date\"]" with
  | some t => some t
  | none => soup.selectOne "meta[itemprop=\"datePublished\"]"

/-- The optional `published` entry: present exactly when a date meta tag was
found with a truthy (present and non-empty) `content` attribute. -/
def publishedEntries (soup : Soup) : List (String × String) :=
  match pubTagOf soup with
  | some pub =>
    match pub.get "content" with
    | some v => if v = "" then [] else [("published", v)]
    | none => []
  | none => []

/-- The optional `type` entry: present exactly when the `dc.type` meta tag
or the visible type label was found; its value is
`t.get("content", t.get_text(strip=True))`. -/
def typeEntries (soup : Soup) : List (String × String) :=
  match typeTagOf soup with
  | some t => [("type", (t.get "content").getD t.text)]
  | none => []

def metaOf (soup : Soup) : List (String × String) :=
  publishedEntries soup ++ typeEntries soup

/-- `extract_teaser_or_body(soup)` from the source: the final text is the
stripped blank-line join of the body paragraphs, else the stripped teaser,
else the sentinel; paired with the metadata mapping. -/
def extract_teaser_or_body (soup : Soup) : String × List (String × String) :=
  let teaser := teaserOf soup
  let bodyParts := bodyPartsOf soup
  let text := pyStrip (String.intercalate "\n\n" bodyParts)
  let text := if text = "" then pyStrip teaser else text
  let text := if text = "" then "No content available." else text
  (text, metaOf soup)

/-- A soup answering `none` to every query: no meta tags, no headings, no
`<title>`, no body, no teaser. -/
def emptySoup : Soup := { selectOne := fun _ => none, findTitle := none }

example : extract_title emptySoup = "No Title" := by decide
example : (extract_teaser_or_body emptySoup).1 = "No content available." := by decide
example : (extract_teaser_or_body emptySoup).2 = [] := by decide

/-! ## Python `hex` (used for collision suffixes, line 200) -/

/-- One lowercase hexadecimal digit. -/
def hexDigitChar (n : Nat) : Char :=
  if n < 10 then Char.ofNat (48 + n) else Char.ofNat (87 + n)

/-- Fuelled digit expansion; fuel `n + 1` always suffices. -/
def hexCharsAux : Nat → Nat → List Char
  | 0, _ => []
  | fuel + 1, n =>
    if n < 16 then [hexDigitChar n]
    else hexCharsAux fuel (n / 16) ++ [hexDigitChar (n % 16)]

/-- Python `hex(n)[2:]` for a natural number: lowercase hexadecimal digits
with no leading zeros (and the single digit `0` for zero). -/
def hexStr (n : Nat) : String := String.mk (hexCharsAux (n + 1) n)

/-- Hexadecimal digit characters (`[0-9a-f]`). -/
def isHexDigitChar (c : Char) : Bool :=
  (decide (48 ≤ c.toNat) && decide (c.toNat ≤ 57))
    || (decide (97 ≤ c.toNat) && decide (c.toNat ≤ 102))

example : hexStr 10 = "a" := by decide
example : hexStr 0 = "0" := by decide
example : hexStr 255 = "ff" := by decide
example : hexStr 16777215 = "ffffff" := by decide

/-! ## Crawl orchestrator (`scrape_nature`, lines 142-220)

The orchestrator is embedded as a pure fold over the page numbers.  The
outside world (HTTP responses and the URL hash, which Python randomises per
process) is an oracle: a listing fetch yields `none` on a non-200 status or
a request exception, and likewise for an article fetch.  File paths are the
structured pair (page directory, file name), and the run additionally
records the chronological event trace (requests, file writes, sleeps) so
that rate-limiting and deduplication claims are statements about traces. -/

structure ListingItem where
  url : String
  /-- Declared type from the listing page (`None` when the type label is
  missing). -/
  type : Option String
deriving DecidableEq

structure World where
  /-- Listing-page fetch results by page number (`none` = non-200 or error). -/
  listing : Nat → Option (List ListingItem)
  /-- Article fetch results by URL (`none` = non-200 or error). -/
  article : String → Option Soup
  /-- `abs(hash(url))` for the running process. -/
  urlHash : String → Nat
  /-- Files already present in the output directory when the run starts. -/
  initFiles : List (Nat × String)

inductive Event where
  | fetchListing (page : Nat)
  | fetchArticle (url : String)
  | write (path : Nat × String)
  | sleep
deriving DecidableEq

structure ArticleRecord where
  title : String
  url : String
  file : Nat × String
  page : Nat
  meta : List (String × String)
  listed_type : Option String
deriving DecidableEq

structure RunState where
  seen : List String
  files : List (Nat × String)
  recs : List ArticleRecord
  saved : Nat
  events : List Event
deriving DecidableEq

/-- The filter on line 166:
`not article_type or (it["type"] or "").strip() == article_type`. -/
def includeItem (fil : String) (it : ListingItem) : Bool :=
  (fil == "") || (pyStrip (it.type.getD "") == fil)

/-- The base name on line 192: `sanitize_filename(title) or "article"`. -/
def fnameFor (title : String) : String :=
  let s := sanitize_filename title
  if s = "" then "article" else s

/-- Per-article body of the loop on lines 174-214: skip seen URLs before any
fetch, record the URL as seen, fetch, extract, resolve a filename collision
with the hash suffix, write the file, append the record, sleep. -/
def processArticle (w : World) (pageNum : Nat) (st : RunState)
    (it : ListingItem) : RunState :=
  if it.url ∈ st.seen then st
  else
    let st1 : RunState :=
      { st with seen := it.url :: st.seen,
                events := st.events ++ [Event.fetchArticle it.url] }
    match w.article it.url with
    | none => st1
    | some soup =>
      let title := extract_title soup
      let tm := extract_teaser_or_body soup
      let fname := fnameFor title
      let fp0 : Nat × String := (pageNum, fname ++ ".txt")
      let fp :=
        if fp0 ∈ st1.files then
          (pageNum, fname ++ "_" ++ hexStr (w.urlHash it.url % 16777216) ++ ".txt")
        else fp0
      -- line 203's re-check of the text before writing; file contents are
      -- not otherwise modelled, only which paths get written
      let _text := if pyStrip tm.1 = "" then "No content available." else tm.1
      let r : ArticleRecord :=
        { title := title, url := it.url, file := fp, page := pageNum,
          meta := tm.2, listed_type := it.type }
      { st1 with
        files := fp :: st1.files,
        recs := st1.recs ++ [r],
        saved := st1.saved + 1,
        events := st1.events ++ [Event.write fp, Event.sleep] }

/-- Per-page body of the loop on lines 149-216: fetch the listing (skipping
the page on failure), filter by declared type, sleep-and-skip when nothing
matched, else process the matched articles in order. -/
def processPage (w : World) (fil : String) (st : RunState)
    (pageNum : Nat) : RunState :=
  let st1 : RunState :=
    { st with events := st.events ++ [Event.fetchListing pageNum] }
  match w.listing pageNum with
  | none => st1
  | some listing =>
    let matched := listing.filter (includeItem fil)
    if matched.isEmpty then { st1 with events := st1.events ++ [Event.sleep] }
    else matched.foldl (processArticle w pageNum) st1

/-- `scrape_nature(pages, article_type, ...)`: the run over pages
`1 .. pages` starting from an empty seen-set and the pre-existing files. -/
def scrape_nature (w : World) (pages : Nat) (fil : String) : RunState :=
  (List.range' 1 pages).foldl (processPage w fil)
    { seen := [], files := w.initFiles, recs := [], saved := 0, events := [] }

/-- The article URL carried by a fetch-article event. -/
def articleUrlOf : Event → Option String
  | .fetchArticle u => some u
  | _ => none

/-- The URLs of all article fetches in a trace, in order. -/
def fetchedUrls (evs : List Event) : List String := evs.filterMap articleUrlOf

/-- The paths of all file writes in a trace, in order. -/
def writtenPaths (evs : List Event) : List (Nat × String) :=
  evs.filterMap (fun e => match e with | .write p => some p | _ => none)

/-- A soup carrying only a `<title>` element with text `T`; it extracts to
title `T` and the sentinel body. -/
def soupTitleT : Soup :=
  { selectOne := fun _ => none, findTitle := some (Tag.mk [] "T" "T" []) }

example : extract_title soupTitleT = "T" := by decide

/-- World for the deduplication scenario: two listing pages that both
reference the URL `u`. -/
def wDedup : World :=
  { listing := fun p =>
      if p = 1 then some [{ url := "u", type := some "News" }]
      else if p = 2 then some [{ url := "u", type := none }]
      else none,
    article := fun _ => some soupTitleT,
    urlHash := fun _ => 0,
    initFiles := [] }

example : fetchedUrls (scrape_nature wDedup 2 "").events = ["u"] := by decide
example : (scrape_nature wDedup 2 "").recs.length = 1 := by decide
example : (scrape_nature wDedup 2 "").saved = 1 := by decide

/-! ## Sanitizer lemmas -/

lemma dropWhile_eq_self_of_all {α : Type} (p : α → Bool) (l : List α)
    (h : ∀ c ∈ l, p c = false) : l.dropWhile p = l := by
  cases l with
  | nil => rfl
  | cons a l => rw [List.dropWhile_cons, h a (List.mem_cons_self a l)]; simp

lemma head?_dropWhile_not {α : Type} {p : α → Bool} {l : List α} {a : α}
    (h : (l.dropWhile p).head? = some a) : p a = false := by
  induction l with
  | nil => simp [List.dropWhile] at h
  | cons b l ih =>
    rw [List.dropWhile_cons] at h
    by_cases hb : p b = true
    · exact ih (by simpa [hb] using h)
    · rw [if_neg hb] at h
      simp only [List.head?_cons, Option.some.injEq] at h
      subst h
      exact Bool.eq_false_iff.mpr hb

lemma rstrip_subset {l : List Char} : rstripUnderscore l ⊆ l := by
  intro c hc
  simp only [rstripUnderscore, List.mem_reverse] at hc
  have := (List.dropWhile_sublist (l := l.reverse)
    (fun c => decide (c.toNat = 95))).subset hc
  simpa [List.mem_reverse] using this

lemma rstrip_length_le (l : List Char) :
    (rstripUnderscore l).length ≤ l.length := by
  simp only [rstripUnderscore, List.length_reverse]
  calc (l.reverse.dropWhile (fun c => decide (c.toNat = 95))).length
      ≤ l.reverse.length := (List.dropWhile_sublist _).length_le
    _ = l.length := List.length_reverse l

lemma rstrip_eq_self_of_all {l : List Char}
    (h : ∀ c ∈ l, decide (c.toNat = 95) = false) : rstripUnderscore l = l := by
  unfold rstripUnderscore
  rw [dropWhile_eq_self_of_all _ _ (fun c hc => h c (List.mem_reverse.mp hc)),
    List.reverse_reverse]

lemma collapseAux_eq_self_of_all {l : List Char}
    (h : ∀ c ∈ l, isSpaceChar c = false) : ∀ b, collapseAux b l = l := by
  induction l with
  | nil => intro b; rfl
  | cons c cs ih =>
    intro b
    have hc := h c (List.mem_cons_self c cs)
    simp only [collapseAux, hc, Bool.false_eq_true, if_false]
    rw [ih (fun d hd => h d (List.mem_cons_of_mem c hd))]

lemma safe_not_space {c : Char} (h : isSafeChar c = true) :
    isSpaceChar c = false := by
  rw [Bool.eq_false_iff]
  intro hsp
  simp only [isSafeChar, isAsciiAlnum, isSpaceChar, Bool.or_eq_true,
    Bool.and_eq_true, decide_eq_true_eq] at h hsp
  omega

lemma alnum_safe {c : Char} (h : isAsciiAlnum c = true) :
    isSafeChar c = true := by
  simp [isSafeChar, h]

lemma alnum_not_und {c : Char} (h : isAsciiAlnum c = true) :
    decide (c.toNat = 95) = false := by
  rw [Bool.eq_false_iff]
  intro hu
  simp only [isAsciiAlnum, Bool.or_eq_true, Bool.and_eq_true,
    decide_eq_true_eq] at h hu
  omega

lemma alnum_ne_space {c : Char} (h : isAsciiAlnum c = true) : ¬(c = ' ') := by
  intro he
  subst he
  exact absurd h (by decide)

lemma safe_keep {c : Char} (h : isSafeChar c = true) :
    (!(isPunctChar c)) = isAsciiAlnum c := by
  cases ha : isAsciiAlnum c with
  | true =>
    rw [Bool.not_eq_true']
    rw [Bool.eq_false_iff]
    intro hp
    simp only [isAsciiAlnum, isPunctChar, Bool.or_eq_true, Bool.and_eq_true,
      decide_eq_true_eq] at ha hp
    omega
  | false =>
    have h95 : c.toNat = 95 ∨ c.toNat = 45 := by
      simp only [isSafeChar, ha, Bool.false_or, Bool.or_eq_true,
        decide_eq_true_eq] at h
      exact h
    have hp : isPunctChar c = true := by
      simp only [isPunctChar, Bool.or_eq_true, Bool.and_eq_true,
        decide_eq_true_eq]
      omega
    rw [hp]
    rfl

/-- After the safe-character filter, re-sanitizing reduces to the tail of the
pipeline applied to the alphanumeric residue (underscores and hyphens are
punctuation, so the second pass deletes them). -/
def postAlnum (v : List Char) : List Char :=
  let b6 := if v = [] then "untitled".data else v
  let b7 := if String.mk (pyUpperL b6) ∈ WINDOWS_RESERVED
            then ('_' :: b6) ++ ['_'] else b6
  rstripUnderscore (b7.take 120)

lemma sanitizeCore_of_safe {l : List Char}
    (h : ∀ c ∈ l, isSafeChar c = true) :
    sanitizeCore 120 l = postAlnum (l.filter isAsciiAlnum) := by
  have h1 : stripChars l = l := by
    unfold stripChars
    rw [dropWhile_eq_self_of_all _ _ (fun c hc => safe_not_space (h c hc))]
    rw [dropWhile_eq_self_of_all _ _
      (fun c hc => safe_not_space (h c (List.mem_reverse.mp hc)))]
    exact List.reverse_reverse l
  have h2 : collapseWs l = l :=
    collapseAux_eq_self_of_all (fun c hc => safe_not_space (h c hc)) false
  have h3 : l.filter (fun c => !(isPunctChar c)) = l.filter isAsciiAlnum :=
    List.filter_congr (fun c hc => safe_keep (h c hc))
  have h4 : (l.filter isAsciiAlnum).map (fun c => if c = ' ' then '_' else c)
      = l.filter isAsciiAlnum := by
    have := List.map_congr_left (l := l.filter isAsciiAlnum)
      (f := fun c => if c = ' ' then '_' else c) (g := id) ?_
    · simpa using this
    · intro c hc
      have hal := (List.mem_filter.mp hc).2
      simp [alnum_ne_space hal]
  have h5 : ((l.filter isAsciiAlnum).filter isSafeChar)
      = l.filter isAsciiAlnum :=
    List.filter_eq_self.mpr
      (fun c hc => alnum_safe (List.mem_filter.mp hc).2)
  simp only [sanitizeCore, postAlnum]
  rw [h1, h2, h3, h4, h5]

lemma mem_sanitizeCore {c : Char} {maxLen : Nat} {l : List Char}
    (hc : c ∈ sanitizeCore maxLen l) : isSafeChar c = true := by
  simp only [sanitizeCore] at hc
  have h1 := List.take_subset _ _ (rstrip_subset hc)
  generalize hb5 : List.filter isSafeChar
    (List.map (fun c => if c = ' ' then '_' else c)
      (List.filter (fun c => !isPunctChar c) (collapseWs (stripChars l))))
        = b5 at h1
  have hsb : ∀ d ∈ b5, isSafeChar d = true := by
    intro d hd
    rw [← hb5] at hd
    exact (List.mem_filter.mp hd).2
  have hsb6 : ∀ d ∈ (if b5 = [] then "untitled".data else b5),
      isSafeChar d = true := by
    by_cases hq : b5 = []
    · simpa [hq] using (by decide : ∀ d ∈ "untitled".data, isSafeChar d = true)
    · simpa [hq] using hsb
  by_cases hr : String.mk (pyUpperL (if b5 = [] then "untitled".data else b5))
      ∈ WINDOWS_RESERVED
  · rw [if_pos hr] at h1
    simp only [List.cons_append, List.mem_cons, List.mem_append,
      List.mem_singleton] at h1
    rcases h1 with h1 | h1 | h1 | h1
    · subst h1; decide
    · exact hsb6 c h1
    · subst h1; decide
    · exact absurd h1 (List.not_mem_nil c)
  · rw [if_neg hr] at h1
    exact hsb6 c h1

lemma sanitizeCore_length_le (maxLen : Nat) (l : List Char) :
    (sanitizeCore maxLen l).length ≤ maxLen := by
  simp only [sanitizeCore]
  refine le_trans (rstrip_length_le _) ?_
  rw [List.length_take]
  exact min_le_left _ _

lemma rstrip_getLast (l : List Char) :
    ((rstripUnderscore l).getLast? == some '_') = false := by
  unfold rstripUnderscore
  rw [List.getLast?_reverse]
  cases hh : (l.reverse.dropWhile (fun c => decide (c.toNat = 95))).head? with
  | none => rfl
  | some a =>
    have ha := head?_dropWhile_not hh
    simp only [decide_eq_false_iff_not] at ha
    rw [beq_eq_false_iff_ne]
    intro he
    simp only [Option.some.injEq] at he
    exact ha (by rw [he]; rfl)

lemma sanitizeCore_last (maxLen : Nat) (l : List Char) :
    ((sanitizeCore maxLen l).getLast? == some '_') = false := by
  simp only [sanitizeCore]
  exact rstrip_getLast _

lemma reserved_data_len : ∀ s ∈ WINDOWS_RESERVED, s.data.length ≤ 4 := by
  decide

lemma postAlnum_reserved {v : List Char} (hne : ¬(v = []))
    (hal : ∀ c ∈ v, isAsciiAlnum c = true)
    (hres : String.mk (pyUpperL v) ∈ WINDOWS_RESERVED) :
    postAlnum v = '_' :: v := by
  simp only [postAlnum, if_neg hne, if_pos hres]
  have hv4 : v.length ≤ 4 := by
    have := reserved_data_len _ hres
    simpa [pyUpperL] using this
  have hlen : (('_' :: v) ++ ['_']).length ≤ 120 := by
    simp only [List.length_append, List.length_cons, List.length_nil]
    omega
  rw [List.take_of_length_le hlen]
  unfold rstripUnderscore
  have hrev : ((('_' :: v) ++ ['_'])).reverse = '_' :: (v.reverse ++ ['_']) := by
    simp
  rw [hrev]
  have step1 : List.dropWhile (fun c => decide (c.toNat = 95))
      ('_' :: (v.reverse ++ ['_']))
      = List.dropWhile (fun c => decide (c.toNat = 95)) (v.reverse ++ ['_']) := by
    rw [List.dropWhile_cons]
    simp
  have step2 : List.dropWhile (fun c => decide (c.toNat = 95))
      (v.reverse ++ ['_']) = v.reverse ++ ['_'] := by
    cases hv : v.reverse with
    | nil => exact absurd (List.reverse_eq_nil_iff.mp hv) hne
    | cons a as =>
      have ha : a ∈ v := List.mem_reverse.mp (hv ▸ List.mem_cons_self a as)
      have hand := alnum_not_und (hal a ha)
      rw [List.cons_append, List.dropWhile_cons]
      simp [hand]
  rw [step1, step2]
  simp

lemma postAlnum_not_res {v : List Char} (hne : ¬(v = []))
    (hal : ∀ c ∈ v, isAsciiAlnum c = true) (hlen : v.length ≤ 120)
    (hres : ¬(String.mk (pyUpperL v) ∈ WINDOWS_RESERVED)) :
    postAlnum v = v := by
  simp only [postAlnum, if_neg hne, if_neg hres]
  rw [List.take_of_length_le hlen]
  exact rstrip_eq_self_of_all (fun c hc => alnum_not_und (hal c hc))

lemma sanitizeCore_postAlnum_fix {v : List Char}
    (hal : ∀ c ∈ v, isAsciiAlnum c = true) (hlen : v.length ≤ 120) :
    sanitizeCore 120 (postAlnum v) = postAlnum v := by
  by_cases hne : v = []
  · subst hne
    have h0 : postAlnum ([] : List Char) = "untitled".data := by decide
    rw [h0]
    have hsafe : ∀ c ∈ "untitled".data, isSafeChar c = true := by decide
    rw [sanitizeCore_of_safe hsafe]
    have hfil : "untitled".data.filter isAsciiAlnum = "untitled".data := by
      decide
    rw [hfil]
    decide
  · by_cases hres : String.mk (pyUpperL v) ∈ WINDOWS_RESERVED
    · rw [postAlnum_reserved hne hal hres]
      have hsafe : ∀ c ∈ ('_' :: v), isSafeChar c = true := by
        intro c hc
        rcases List.mem_cons.mp hc with hc | hc
        · subst hc; decide
        · exact alnum_safe (hal c hc)
      rw [sanitizeCore_of_safe hsafe]
      have hfil : ('_' :: v).filter isAsciiAlnum = v := by
        rw [List.filter_cons]
        have : isAsciiAlnum '_' = false := by decide
        simp only [this, Bool.false_eq_true, if_false]
        exact List.filter_eq_self.mpr hal
      rw [hfil]
      exact postAlnum_reserved hne hal hres
    · rw [postAlnum_not_res hne hal hlen hres]
      rw [sanitizeCore_of_safe (fun c hc => alnum_safe (hal c hc))]
      rw [List.filter_eq_self.mpr hal]
      exact postAlnum_not_res hne hal hlen hres

lemma sanitizeCore_iter (l : List Char) :
    sanitizeCore 120 (sanitizeCore 120 (sanitizeCore 120 l))
      = sanitizeCore 120 (sanitizeCore 120 l) := by
  have hsafe : ∀ c ∈ sanitizeCore 120 l, isSafeChar c = true :=
    fun c hc => mem_sanitizeCore hc
  rw [sanitizeCore_of_safe hsafe]
  apply sanitizeCore_postAlnum_fix
  · exact fun c hc => (List.mem_filter.mp hc).2
  · exact le_trans (List.length_filter_le _ _) (sanitizeCore_length_le _ _)

/-- Claim C1, counterexample.  The claim asserts that `sanitize_filename`
with the default maximum length never returns the empty string and never
returns a reserved device name unwrapped.  Both parts fail: `". ."`
sanitizes to the empty string (the dots are punctuation, the inner space
becomes an underscore, and the trailing-underscore strip removes it), and
`"CON ."` sanitizes to the reserved name `"CON"` itself (the reserved-name
check runs before the trailing underscore introduced by the space is
stripped). -/
theorem c1_counterexample :
    sanitize_filename ". ." = ""
      ∧ sanitize_filename "CON ." = "CON"
      ∧ ("CON" : String) ∈ WINDOWS_RESERVED
      ∧ ("" : String).length = 0 := by
  refine ⟨by decide, by decide, by decide, by decide⟩

/-- Claim C1, amended.  For every title, `sanitize_filename` with the
default maximum length returns a string over `[A-Za-z0-9_-]` of length at
most 120 that does not end in an underscore; the claim's further assertions
(non-emptiness and never equalling a reserved device name unwrapped) are
dropped, as `c1_counterexample` shows them false. -/
theorem c1_thm (t : String) :
    (sanitize_filename t).data.all isSafeChar = true
      ∧ (sanitize_filename t).length ≤ 120
      ∧ ((sanitize_filename t).data.getLast? == some '_') = false := by
  refine ⟨?_, ?_, ?_⟩
  · rw [List.all_eq_true]
    intro c hc
    exact mem_sanitizeCore hc
  · exact sanitizeCore_length_le 120 t.data
  · exact sanitizeCore_last 120 t.data

/-- Claim C2, counterexample.  `sanitize_filename` is not idempotent:
underscores are punctuation in Python's `string.punctuation`, so the second
pass deletes the underscores the first pass introduced for spaces:
`"a b"` sanitizes to `"a_b"`, which re-sanitizes to `"ab"`. -/
theorem c2_counterexample :
    sanitize_filename "a b" = "a_b"
      ∧ sanitize_filename (sanitize_filename "a b") = "ab"
      ∧ (sanitize_filename (sanitize_filename "a b")
          == sanitize_filename "a b") = false := by
  refine ⟨by decide, by decide, by decide⟩

/-- Claim C2, amended.  `sanitize_filename` is not idempotent
(`c2_counterexample`), but its second iterate is a fixed point: for every
title `t`, sanitizing three times equals sanitizing twice. -/
theorem c2_thm (t : String) :
    sanitize_filename (sanitize_filename (sanitize_filename t))
      = sanitize_filename (sanitize_filename t) := by
  have hdata : ∀ l : List Char, (String.mk l).data = l := fun l => rfl
  simp only [sanitize_filename, hdata]
  exact congrArg String.mk (sanitizeCore_iter t.data)

/-! ## Title-extraction claims -/

/-- A soup whose only content is a `<title>` element with empty text: every
meta-tag fallback fails, every heading fallback fails, and the `<title>`
text is unusable (empty), yet `extract_title` returns the empty string
rather than `"No Title"`. -/
def soupEmptyTitle : Soup :=
  { selectOne := fun _ => none, findTitle := some (Tag.mk [] "" "" []) }

/-- Claim C4, counterexample.  In `soupEmptyTitle` no fallback yields a
usable candidate (no accepted meta value, no non-empty heading, empty
`<title>` text), but `extract_title` returns `""`, not `"No Title"` — so
`extract_title` can also return the empty string. -/
theorem c4_counterexample :
    extract_title soupEmptyTitle = ""
      ∧ metaTitleSelectors.findSome? (metaTitleCandidate soupEmptyTitle) = none
      ∧ h1Selectors.findSome? (h1Candidate soupEmptyTitle) = none
      ∧ (extract_title soupEmptyTitle == "No Title") = false := by
  refine ⟨by decide, by decide, by decide, by decide⟩

/-- Claim C4, amended.  `extract_title` returns exactly `"No Title"` when
every meta-tag candidate is rejected, every scoped heading is empty, and the
`<title>` element is absent altogether.  (When a `<title>` element is
present, its suffix-stripped text is returned even when that is empty, so
`extract_title` can return the empty string, as `c4_counterexample`
shows.) -/
theorem c4_thm (soup : Soup)
    (h1 : metaTitleSelectors.findSome? (metaTitleCandidate soup) = none)
    (h2 : h1Selectors.findSome? (h1Candidate soup) = none)
    (h3 : soup.findTitle = none) :
    extract_title soup = "No Title" := by
  simp only [extract_title, h1, h2, h3]
  decide

/-- Claim C4, witness: the fully empty document takes the all-fallbacks-fail
path and yields the literal `"No Title"`. -/
theorem c4_witness : extract_title emptySoup = "No Title" :=
  c4_thm emptySoup rfl rfl rfl

/-! ## Listing-filter claim -/

/-- Claim C6.  An item passes the filter on line 166 iff the type filter is
the empty string or the item's declared type equals the filter exactly.  The
hypothesis records that the declared type is whitespace-stripped, which
holds for every item the listing parser produces (BeautifulSoup's
`get_text(strip=True)` output is stripped); the code re-strips before
comparing, so on such items the comparison is exact string match. -/
theorem c6_thm (fil : String) (it : ListingItem)
    (h : pyStrip (it.type.getD "") = it.type.getD "") :
    includeItem fil it = true ↔ (fil = "" ∨ it.type = some fil) := by
  cases ht : it.type with
  | none =>
    simp only [includeItem, ht, Option.getD_none] at h ⊢
    constructor
    · intro hi
      rcases Bool.or_eq_true_iff.mp hi with hi | hi
      · exact Or.inl (beq_iff_eq.mp hi)
      · rw [h] at hi
        exact Or.inl (beq_iff_eq.mp hi).symm
    · intro hi
      rcases hi with hi | hi
      · subst hi; rfl
      · exact absurd hi (by simp)
  | some s =>
    simp only [includeItem, ht, Option.getD_some] at h ⊢
    rw [h]
    constructor
    · intro hi
      rcases Bool.or_eq_true_iff.mp hi with hi | hi
      · exact Or.inl (beq_iff_eq.mp hi)
      · exact Or.inr (by rw [beq_iff_eq.mp hi])
    · intro hi
      rcases hi with hi | hi
      · subst hi
        simp
      · rw [Option.some.injEq] at hi
        subst hi
        simp

/-- Claim C6, witness: with filter `"News"` and declared types `"News"`,
`"Comment"` and `None`, only the `"News"` item passes the filter. -/
theorem c6_witness :
    includeItem "News" { url := "u1", type := some "News" } = true
      ∧ includeItem "News" { url := "u2", type := some "Comment" } = false
      ∧ includeItem "News" { url := "u3", type := none } = false := by
  refine ⟨?_, ?_, ?_⟩
  · exact (c6_thm "News" { url := "u1", type := some "News" }
      (by decide)).mpr (Or.inr rfl)
  · have h := c6_thm "News" { url := "u2", type := some "Comment" }
      (by decide)
    have hcon : ¬(("News" : String) = ""
        ∨ (some "Comment" : Option String) = some "News") := by
      decide
    cases hb : includeItem "News" { url := "u2", type := some "Comment" } with
    | false => rfl
    | true => exact absurd (h.mp hb) hcon
  · have h := c6_thm "News" { url := "u3", type := none } (by decide)
    have : ¬(("News" : String) = "" ∨ (none : Option String) = some "News") := by
      decide
    cases hb : includeItem "News" { url := "u3", type := none } with
    | false => rfl
    | true => exact absurd (h.mp hb) this

/-! ## Body/teaser extraction claims -/

lemma findSome?_eq_head?_filterMap {α β : Type} (f : α → Option β)
    (l : List α) : l.findSome? f = (l.filterMap f).head? := by
  induction l with
  | nil => rfl
  | cons a l ih =>
    rw [List.findSome?_cons, List.filterMap_cons]
    cases f a with
    | none => exact ih
    | some b => rfl

/-- The spec's body tier, written from its words: take the first container
selector that yields non-empty paragraph texts. -/
def specBodyParts (soup : Soup) : List String :=
  ((bodySelectors.filterMap (bodyCandidate soup)).head?).getD []

/-- The spec's final-text rule, written from its words: the body text if
non-empty, else the teaser, else the sentinel, all trimmed. -/
def specFinalText (soup : Soup) : String :=
  let bodyText := pyStrip (String.intercalate "\n\n" (specBodyParts soup))
  let teaserText := pyStrip (teaserOf soup)
  if bodyText = "" then
    (if teaserText = "" then "No content available." else teaserText)
  else bodyText

/-- A document with one body container holding the three paragraphs `A.`,
`B.`, `C.` and no teaser anywhere. -/
def soupABC : Soup :=
  { selectOne := fun s =>
      if s = "div#content div.c-article-body" then
        some (Tag.mk [] "" ""
          [Tag.mk [] "A." "A." [], Tag.mk [] "B." "B." [],
           Tag.mk [] "C." "C." []])
      else none,
    findTitle := none }

/-- Claim C3.  The extracted text of every article document follows the
spec's tiering (the first body-container selector yielding non-empty
paragraphs joined with blank lines, else the teaser, else the sentinel);
in particular the `A.`/`B.`/`C.` container with no teaser joins with
blank-line separators, and a document with neither body nor teaser yields
exactly the sentinel. -/
theorem c3_thm :
    (∀ soup : Soup, (extract_teaser_or_body soup).1 = specFinalText soup)
      ∧ (extract_teaser_or_body soupABC).1 = "A.\n\nB.\n\nC."
      ∧ (extract_teaser_or_body emptySoup).1 = "No content available." := by
  refine ⟨?_, by decide, by decide⟩
  intro soup
  have hbp : bodyPartsOf soup = specBodyParts soup := by
    simp only [bodyPartsOf, specBodyParts, findSome?_eq_head?_filterMap]
  simp only [extract_teaser_or_body, specFinalText, hbp]
  by_cases h1 : pyStrip (String.intercalate "\n\n" (specBodyParts soup)) = ""
  · simp [h1]
  · simp [h1]

/-! ## Metadata claims -/

/-- A document whose `dc.type` meta tag has an empty `content` attribute. -/
def soupEmptyTypeAttr : Soup :=
  { selectOne := fun s =>
      if s = "meta[name=\"dc.type\"]" then some (Tag.mk [("content", "")] "" "" [])
      else none,
    findTitle := none }

/-- Claim C8, counterexample.  The claim says `type` is never set to the
empty string, but a present `dc.type` tag whose `content` attribute is
empty produces exactly `{"type": ""}` (`tag.get("content", default)`
returns the present empty attribute, not the default). -/
theorem c8_counterexample :
    (extract_teaser_or_body soupEmptyTypeAttr).2 = [("type", "")] := by
  decide

lemma publishedEntries_mem {soup : Soup} {q : String × String}
    (hq : q ∈ publishedEntries soup) :
    q.1 = "published" ∧ (q.2 == "") = false := by
  rcases h1 : pubTagOf soup with _ | pub
  · simp only [publishedEntries, h1] at hq
    exact absurd hq (List.not_mem_nil _)
  · simp only [publishedEntries, h1] at hq
    rcases h2 : pub.get "content" with _ | w
    · simp only [h2] at hq
      exact absurd hq (List.not_mem_nil _)
    · simp only [h2] at hq
      by_cases h3 : w = ""
      · rw [if_pos h3] at hq
        exact absurd hq (List.not_mem_nil _)
      · rw [if_neg h3] at hq
        rw [List.mem_singleton] at hq
        subst hq
        exact ⟨rfl, beq_eq_false_iff_ne.mpr h3⟩

lemma typeEntries_mem {soup : Soup} {q : String × String}
    (hq : q ∈ typeEntries soup) : q.1 = "type" := by
  rcases h1 : typeTagOf soup with _ | t
  · simp only [typeEntries, h1] at hq
    exact absurd hq (List.not_mem_nil _)
  · simp only [typeEntries, h1] at hq
    rw [List.mem_singleton] at hq
    subst hq
    rfl

/-- Claim C8, amended.  In every `ExtractionResult` metadata mapping:
`published` is never the empty string and is omitted unless a date meta tag
carries a non-empty `content`; `type` is omitted exactly when neither the
`dc.type` meta tag nor the visible type label is present, but when present
its value may be the empty string (`c8_counterexample`). -/
theorem c8_thm (soup : Soup) :
    (∀ v : String, ("published", v) ∈ (extract_teaser_or_body soup).2
        → (v == "") = false)
      ∧ (typeTagOf soup = none →
          ∀ v : String, ("type", v) ∉ (extract_teaser_or_body soup).2)
      ∧ (∀ t : Tag, typeTagOf soup = some t →
          ("type", (t.get "content").getD t.text)
            ∈ (extract_teaser_or_body soup).2) := by
  have h2 : (extract_teaser_or_body soup).2 = metaOf soup := rfl
  rw [h2]
  refine ⟨?_, ?_, ?_⟩
  · intro v hv
    rcases List.mem_append.mp hv with hv | hv
    · exact (publishedEntries_mem hv).2
    · have h' : ("published" : String) = "type" := typeEntries_mem hv
      exact absurd h' (by decide)
  · intro ht v hv
    rcases List.mem_append.mp hv with hv | hv
    · have h' : ("type" : String) = "published" := (publishedEntries_mem hv).1
      exact absurd h' (by decide)
    · simp only [typeEntries, ht] at hv
      exact absurd hv (List.not_mem_nil _)
  · intro t ht
    refine List.mem_append.mpr (Or.inr ?_)
    simp only [typeEntries, ht]
    exact List.mem_singleton.mpr rfl

/-- A document whose only date information is a `dc.date` meta tag with
content `2020`. -/
def soupPub2020 : Soup :=
  { selectOne := fun s =>
      if s = "meta[name=\"dc.date\"]" then
        some (Tag.mk [("content", "2020")] "" "" [])
      else none,
    findTitle := none }

/-- Claim C8, witness: the amended theorem applied at concrete documents —
a present `published` value is non-empty, an absent type selector yields no
`type` entry, and a present (empty-content) type tag yields its entry. -/
theorem c8_witness :
    (("2020" : String) == "") = false
      ∧ (("type", "x") ∉ (extract_teaser_or_body emptySoup).2)
      ∧ (("type", "") ∈ (extract_teaser_or_body soupEmptyTypeAttr).2) := by
  refine ⟨?_, ?_, ?_⟩
  · exact (c8_thm soupPub2020).1 "2020" (by decide)
  · exact (c8_thm emptySoup).2.1 rfl "x"
  · exact (c8_thm soupEmptyTypeAttr).2.2 (Tag.mk [("content", "")] "" "" [])
      rfl

/-! ## Collision-suffix claims -/

lemma hexDigit_ok : ∀ m, m < 16 → isHexDigitChar (hexDigitChar m) = true := by
  decide

lemma hexAux_len : ∀ (fuel n k : Nat), n < 16 ^ (k + 1)
    → (hexCharsAux fuel n).length ≤ k + 1 := by
  intro fuel
  induction fuel with
  | zero =>
    intro n k _
    simp [hexCharsAux]
  | succ fuel ih =>
    intro n k h
    unfold hexCharsAux
    by_cases h16 : n < 16
    · rw [if_pos h16]
      simp
    · rw [if_neg h16]
      cases k with
      | zero =>
        rw [pow_one] at h
        omega
      | succ j =>
        have hdiv : n / 16 < 16 ^ (j + 1) := by
          rw [Nat.div_lt_iff_lt_mul (by norm_num)]
          calc n < 16 ^ (j + 1 + 1) := h
            _ = 16 ^ (j + 1) * 16 := by ring
        have hle := ih (n / 16) j hdiv
        rw [List.length_append, List.length_cons, List.length_nil]
        omega

lemma hexAux_ne_nil (n : Nat) : hexCharsAux (n + 1) n ≠ [] := by
  unfold hexCharsAux
  by_cases h16 : n < 16
  · rw [if_pos h16]
    simp
  · rw [if_neg h16]
    simp

lemma hexAux_digits : ∀ (fuel n : Nat),
    (hexCharsAux fuel n).all isHexDigitChar = true := by
  intro fuel
  induction fuel with
  | zero => intro n; rfl
  | succ fuel ih =>
    intro n
    unfold hexCharsAux
    by_cases h16 : n < 16
    · rw [if_pos h16]
      simp [hexDigit_ok n h16]
    · rw [if_neg h16]
      rw [List.all_append]
      simp [ih (n / 16), hexDigit_ok (n % 16) (Nat.mod_lt _ (by norm_num))]

lemma hexStr_spec (n : Nat) :
    1 ≤ (hexStr (n % 16777216)).length
      ∧ (hexStr (n % 16777216)).length ≤ 6
      ∧ (hexStr (n % 16777216)).data.all isHexDigitChar = true := by
  have hlt : n % 16777216 < 16777216 := Nat.mod_lt _ (by norm_num)
  refine ⟨?_, ?_, ?_⟩
  · have hne := hexAux_ne_nil (n % 16777216)
    have hz : (hexCharsAux (n % 16777216 + 1) (n % 16777216)).length ≠ 0 :=
      fun h0 => hne (List.length_eq_zero.mp h0)
    exact Nat.one_le_iff_ne_zero.mpr hz
  · exact hexAux_len _ _ 5
      (by rw [show (16 : Nat) ^ (5 + 1) = 16777216 from by norm_num]; exact hlt)
  · exact hexAux_digits _ _

/-- World for the filename-collision scenario: one listing page with two
distinct article URLs whose documents extract to the same title `T`, where
the process hash of the second URL is 10. -/
def wCollide : World :=
  { listing := fun p =>
      if p = 1 then
        some [{ url := "u1", type := none }, { url := "u2", type := none }]
      else none,
    article := fun _ => some soupTitleT,
    urlHash := fun u => if u = "u2" then 10 else 0,
    initFiles := [] }

/-- Claim C7, counterexample.  The claim says the collision suffix has
exactly 6 hexadecimal digits; but `hex(x)[2:]` drops leading zeros, so with
`abs(hash(url)) % 16**6 = 10` the second colliding article is written as
`T_a.txt` — a 1-digit suffix. -/
theorem c7_counterexample :
    ((scrape_nature wCollide 1 "").recs.map (fun r => r.file))
        = [(1, "T.txt"), (1, "T_a.txt")]
      ∧ hexStr (wCollide.urlHash "u2" % 16777216) = "a"
      ∧ ("a" : String).length = 1 := by
  refine ⟨by decide, by decide, by decide⟩

/-- Claim C7, amended.  When the target path already exists the article is
written under the base name with a suffix of **at most** 6 (and at least 1)
lowercase hexadecimal digits — `hex(abs(hash(url)) % 16**6)[2:]`, which
drops leading zeros; in the collision scenario the first file is written
once and left untouched, and the two records reference distinct written
files. -/
theorem c7_thm :
    (∀ n : Nat, 1 ≤ (hexStr (n % 16777216)).length
        ∧ (hexStr (n % 16777216)).length ≤ 6
        ∧ (hexStr (n % 16777216)).data.all isHexDigitChar = true)
      ∧ ((scrape_nature wCollide 1 "").recs.map (fun r => r.file))
          = [(1, "T.txt"), (1, "T_a.txt")]
      ∧ writtenPaths (scrape_nature wCollide 1 "").events
          = [(1, "T.txt"), (1, "T_a.txt")]
      ∧ (((1, "T.txt") : Nat × String) ∈ (scrape_nature wCollide 1 "").files)
      ∧ (((1, "T_a.txt") : Nat × String) ∈ (scrape_nature wCollide 1 "").files)
      ∧ ((((1, "T.txt") : Nat × String) == (1, "T_a.txt")) = false) := by
  exact ⟨hexStr_spec, by decide, by decide, by decide, by decide, by decide⟩

/-! ## Orchestrator invariants

The per-article and per-page steps are characterised by a small case
analysis — skip, failed fetch, or successful save — so that each run-level
invariant (deduplication, rate-limiting shape, filename length) follows by
fold preservation. -/

lemma foldl_preserve {α β : Type} (P : β → Prop) (f : β → α → β)
    (h : ∀ b a, P b → P (f b a)) :
    ∀ (l : List α) (b : β), P b → P (l.foldl f b) := by
  intro l
  induction l with
  | nil => intro b hb; exact hb
  | cons a l ih =>
    intro b hb
    rw [List.foldl_cons]
    exact ih _ (h b a hb)

lemma fnameFor_length (t : String) : 1 ≤ (fnameFor t).length := by
  unfold fnameFor
  by_cases h : sanitize_filename t = ""
  · rw [if_pos h]
    decide
  · rw [if_neg h]
    refine Nat.pos_of_ne_zero (fun hz => h ?_)
    cases hs : sanitize_filename t with
    | mk d =>
      rw [hs] at hz
      have hd : d = [] := List.length_eq_zero.mp hz
      rw [hd]

lemma processArticle_cases (w : World) (p : Nat) (st : RunState)
    (it : ListingItem) :
    processArticle w p st it = st
      ∨ (¬(it.url ∈ st.seen) ∧ processArticle w p st it =
          { st with seen := it.url :: st.seen,
                    events := st.events ++ [Event.fetchArticle it.url] })
      ∨ (¬(it.url ∈ st.seen) ∧ ∃ (fp : Nat × String) (r : ArticleRecord),
          4 < fp.2.length ∧
          processArticle w p st it =
            { seen := it.url :: st.seen,
              files := fp :: st.files,
              recs := st.recs ++ [r],
              saved := st.saved + 1,
              events := (st.events ++ [Event.fetchArticle it.url])
                          ++ [Event.write fp, Event.sleep] }) := by
  unfold processArticle
  by_cases hs : it.url ∈ st.seen
  · left
    rw [if_pos hs]
  · rw [if_neg hs]
    rcases ha : w.article it.url with _ | soup
    · right; left
      exact ⟨hs, rfl⟩
    · right; right
      refine ⟨hs, _, _, ?_, rfl⟩
      dsimp only
      have hfl := fnameFor_length (extract_title soup)
      by_cases hex : ((p, fnameFor (extract_title soup) ++ ".txt")
          : Nat × String) ∈ st.files
      · rw [if_pos hex]
        dsimp only
        simp only [String.length_append]
        have h4 : (".txt" : String).length = 4 := by decide
        have h1' : ("_" : String).length = 1 := by decide
        rw [h4, h1']
        omega
      · rw [if_neg hex]
        dsimp only
        simp only [String.length_append]
        have h4 : (".txt" : String).length = 4 := by decide
        rw [h4]
        omega

lemma processPage_cases (w : World) (fil : String) (st : RunState)
    (p : Nat) :
    processPage w fil st p
        = { st with events := st.events ++ [Event.fetchListing p] }
      ∨ processPage w fil st p
        = { st with events := (st.events ++ [Event.fetchListing p])
                                ++ [Event.sleep] }
      ∨ ∃ matched : List ListingItem,
          processPage w fil st p = matched.foldl (processArticle w p)
            { st with events := st.events ++ [Event.fetchListing p] } := by
  unfold processPage
  rcases hl : w.listing p with _ | listing
  · left
    rfl
  · by_cases hm : (listing.filter (includeItem fil)).isEmpty = true
    · right; left
      dsimp only
      rw [if_pos hm]
    · right; right
      exact ⟨listing.filter (includeItem fil), by dsimp only; rw [if_neg hm]⟩

/-! ### Claim C5: run-scoped URL deduplication -/

/-- The deduplication invariant: article-fetch URLs in the trace are
pairwise distinct, and every fetched URL is in the seen-set. -/
def dedupInv (st : RunState) : Prop :=
  (fetchedUrls st.events).Nodup
    ∧ ∀ u ∈ fetchedUrls st.events, u ∈ st.seen

lemma fetchedUrls_append (a b : List Event) :
    fetchedUrls (a ++ b) = fetchedUrls a ++ fetchedUrls b :=
  List.filterMap_append a b _

lemma fetchedUrls_listing (p : Nat) :
    fetchedUrls [Event.fetchListing p] = [] := rfl

lemma fetchedUrls_sleep : fetchedUrls [Event.sleep] = [] := rfl

lemma fetchedUrls_article (u : String) :
    fetchedUrls [Event.fetchArticle u] = [u] := rfl

lemma fetchedUrls_write_sleep (fp : Nat × String) :
    fetchedUrls [Event.write fp, Event.sleep] = [] := rfl

lemma dedupInv_fetch {st : RunState} {u : String}
    (h : dedupInv st) (hu : ¬(u ∈ st.seen)) (seen' : List String)
    (hs : seen' = u :: st.seen) (evs : List Event)
    (hevs : fetchedUrls evs = fetchedUrls st.events ++ [u]) :
    (fetchedUrls evs).Nodup ∧ ∀ v ∈ fetchedUrls evs, v ∈ seen' := by
  rcases h with ⟨hnd, hmem⟩
  constructor
  · rw [hevs, List.nodup_append]
    refine ⟨hnd, List.nodup_singleton _, ?_⟩
    intro a ha hmem1
    rw [List.mem_singleton] at hmem1
    subst hmem1
    exact hu (hmem a ha)
  · intro v hv
    rw [hevs] at hv
    rw [hs]
    rcases List.mem_append.mp hv with hv | hv
    · exact List.mem_cons_of_mem _ (hmem v hv)
    · rw [List.mem_singleton] at hv
      subst hv
      exact List.mem_cons_self _ _

lemma processArticle_dedup (w : World) (p : Nat) (it : ListingItem) :
    ∀ st, dedupInv st → dedupInv (processArticle w p st it) := by
  intro st h
  rcases processArticle_cases w p st it with hc | ⟨hu, hc⟩ | ⟨hu, fp, r, _, hc⟩
  · rw [hc]; exact h
  · rw [hc]
    exact dedupInv_fetch h hu _ rfl _
      (by rw [fetchedUrls_append, fetchedUrls_article])
  · rw [hc]
    exact dedupInv_fetch h hu _ rfl _
      (by rw [fetchedUrls_append, fetchedUrls_append, fetchedUrls_article,
              fetchedUrls_write_sleep, List.append_nil])

lemma processPage_dedup (w : World) (fil : String) :
    ∀ st p, dedupInv st → dedupInv (processPage w fil st p) := by
  intro st p h
  have hlist : dedupInv { st with events := st.events
      ++ [Event.fetchListing p] } := by
    rcases h with ⟨hnd, hmem⟩
    constructor
    · rw [fetchedUrls_append, fetchedUrls_listing, List.append_nil]
      exact hnd
    · intro u hu
      rw [fetchedUrls_append, fetchedUrls_listing, List.append_nil] at hu
      exact hmem u hu
  rcases processPage_cases w fil st p with hc | hc | ⟨matched, hc⟩
  · rw [hc]; exact hlist
  · rw [hc]
    rcases hlist with ⟨hnd, hmem⟩
    constructor
    · rw [fetchedUrls_append, fetchedUrls_sleep, List.append_nil]
      exact hnd
    · intro u hu
      rw [fetchedUrls_append, fetchedUrls_sleep, List.append_nil] at hu
      exact hmem u hu
  · rw [hc]
    exact foldl_preserve dedupInv (processArticle w p)
      (fun st' it h' => processArticle_dedup w p it st' h') matched _ hlist

/-- Claim C5.  Within one run each distinct article URL is fetched at most
once — the article-fetch URLs of every run's trace are pairwise distinct —
and in the concrete two-listing-pages-sharing-one-URL scenario the run
performs exactly one article fetch and appends exactly one record. -/
theorem c5_thm :
    (∀ (w : World) (pages : Nat) (fil : String),
        (fetchedUrls (scrape_nature w pages fil).events).Nodup)
      ∧ fetchedUrls (scrape_nature wDedup 2 "").events = ["u"]
      ∧ (scrape_nature wDedup 2 "").recs.length = 1
      ∧ (scrape_nature wDedup 2 "").saved = 1 := by
  refine ⟨?_, by decide, by decide, by decide⟩
  intro w pages fil
  have h0 : dedupInv ⟨[], w.initFiles, [], 0, []⟩ := by
    constructor
    · exact List.nodup_nil
    · intro u hu
      exact absurd hu (List.not_mem_nil u)
  exact (foldl_preserve dedupInv (processPage w fil)
    (fun st p h => processPage_dedup w fil st p h) _ _ h0).1

/-! ### Claim C9: rate limiting -/

def isWriteEv : Event → Bool
  | .write _ => true
  | _ => false

def isSleepEv : Event → Bool
  | .sleep => true
  | _ => false

def isFetchEv : Event → Bool
  | .fetchListing _ => true
  | .fetchArticle _ => true
  | _ => false

/-- Scan of a trace checking that a sleep immediately follows every file
write (the flag records whether the previous event was a write, which must
not be the last event either). -/
def wtsAux : Bool → List Event → Bool
  | p, [] => !p
  | p, e :: es => (if p then isSleepEv e else true) && wtsAux (isWriteEv e) es

def delayAfterWrite (l : List Event) : Bool := wtsAux false l

/-- The claim's own rate-limiting property, written from its words: between
every pair of consecutive HTTP requests in the trace, a sleep occurs (the
flag records a request with no intervening sleep yet). -/
def delayedAux : Bool → List Event → Bool
  | _, [] => true
  | pending, e :: es =>
    if isFetchEv e then (!pending) && delayedAux true es
    else if isSleepEv e then delayedAux false es
    else delayedAux pending es

def delayBetweenRequests (l : List Event) : Bool := delayedAux false l

/-- Whether the last event of the trace is a file write (`p` for the empty
trace). -/
def lastFlag : Bool → List Event → Bool
  | p, [] => p
  | _, e :: es => lastFlag (isWriteEv e) es

lemma lastFlag_cons (p : Bool) (e : Event) (es : List Event) :
    lastFlag p (e :: es) = lastFlag (isWriteEv e) es := rfl

lemma lastFlag_append (p : Bool) (l b : List Event) :
    lastFlag p (l ++ b) = lastFlag (lastFlag p l) b := by
  induction l generalizing p with
  | nil => rfl
  | cons e l ih =>
    rw [List.cons_append, lastFlag_cons, lastFlag_cons, ih]

lemma wtsAux_append : ∀ (l b : List Event) (p : Bool), wtsAux p l = true
    → lastFlag p l = false → wtsAux false b = true
    → wtsAux p (l ++ b) = true := by
  intro l
  induction l with
  | nil =>
    intro b p _ h2 h3
    cases p with
    | false => exact h3
    | true => exact absurd h2 (by simp [lastFlag])
  | cons e l ih =>
    intro b p h1 h2 h3
    rw [List.cons_append]
    unfold wtsAux at h1 ⊢
    rw [Bool.and_eq_true] at h1 ⊢
    refine ⟨h1.1, ?_⟩
    apply ih
    · exact h1.2
    · rw [lastFlag_cons] at h2
      exact h2
    · exact h3

lemma wts_listing (p' : Nat) :
    wtsAux false [Event.fetchListing p'] = true := rfl

lemma wts_sleep : wtsAux false [Event.sleep] = true := rfl

lemma wts_articleFetch (u : String) :
    wtsAux false [Event.fetchArticle u] = true := rfl

lemma wts_write_sleep (fp : Nat × String) :
    wtsAux false [Event.write fp, Event.sleep] = true := rfl

lemma lastFlag_listing (q : Bool) (p' : Nat) :
    lastFlag q [Event.fetchListing p'] = false := rfl

lemma lastFlag_sleepB (q : Bool) : lastFlag q [Event.sleep] = false := rfl

lemma lastFlag_articleB (q : Bool) (u : String) :
    lastFlag q [Event.fetchArticle u] = false := rfl

lemma lastFlag_wsB (q : Bool) (fp : Nat × String) :
    lastFlag q [Event.write fp, Event.sleep] = false := rfl

/-- The rate-limiting invariant: every write is immediately followed by a
sleep, and the trace does not end on a write. -/
def delayInv (st : RunState) : Prop :=
  wtsAux false st.events = true ∧ lastFlag false st.events = false

lemma delayInv_append {evs b : List Event}
    (h : wtsAux false evs = true ∧ lastFlag false evs = false)
    (hb1 : wtsAux false b = true) (hb2 : ∀ q, lastFlag q b = false) :
    wtsAux false (evs ++ b) = true ∧ lastFlag false (evs ++ b) = false := by
  constructor
  · exact wtsAux_append evs b false h.1 h.2 hb1
  · rw [lastFlag_append]
    exact hb2 _

lemma processArticle_delay (w : World) (pg : Nat) (it : ListingItem) :
    ∀ st, delayInv st → delayInv (processArticle w pg st it) := by
  intro st h
  rcases processArticle_cases w pg st it with hc | ⟨_, hc⟩ | ⟨_, fp, r, _, hc⟩
  · rw [hc]; exact h
  · rw [hc]
    exact delayInv_append h (wts_articleFetch it.url)
      (fun q => lastFlag_articleB q it.url)
  · rw [hc]
    have h1 := delayInv_append h (wts_articleFetch it.url)
      (fun q => lastFlag_articleB q it.url)
    exact delayInv_append h1 (wts_write_sleep fp) (fun q => lastFlag_wsB q fp)

lemma processPage_delay (w : World) (fil : String) :
    ∀ st p, delayInv st → delayInv (processPage w fil st p) := by
  intro st p h
  have hlist := delayInv_append h (wts_listing p) (fun q => lastFlag_listing q p)
  rcases processPage_cases w fil st p with hc | hc | ⟨matched, hc⟩
  · rw [hc]; exact hlist
  · rw [hc]
    exact delayInv_append hlist wts_sleep (fun q => lastFlag_sleepB q)
  · rw [hc]
    exact foldl_preserve delayInv (processArticle w p)
      (fun st' it h' => processArticle_delay w p it st' h') matched _ hlist

/-- World for the rate-limiting counterexample: one listing page with one
successfully processed article. -/
def wOnePage : World :=
  { listing := fun p =>
      if p = 1 then some [{ url := "u", type := none }] else none,
    article := fun _ => some soupTitleT,
    urlHash := fun _ => 0,
    initFiles := [] }

/-- Claim C9, counterexample.  No delay separates the listing request from
the first article request: the run's trace goes fetch-listing, then
fetch-article immediately, with the sleep only after the write — so the
claimed between-every-pair-of-requests delay property is false on this
run. -/
theorem c9_counterexample :
    (scrape_nature wOnePage 1 "").events
        = [Event.fetchListing 1, Event.fetchArticle "u",
           Event.write (1, "T.txt"), Event.sleep]
      ∧ delayBetweenRequests (scrape_nature wOnePage 1 "").events = false := by
  refine ⟨by decide, by decide⟩

/-- Claim C9, amended.  The fixed inter-request delay is not observed
between every pair of consecutive requests (`c9_counterexample`: none
between a listing fetch and the first article fetch, nor after a failed
fetch); what the code guarantees is that a sleep immediately follows every
file write (every successfully saved article), and that a trace never ends
on a write. -/
theorem c9_thm (w : World) (pages : Nat) (fil : String) :
    delayAfterWrite (scrape_nature w pages fil).events = true := by
  have h0 : delayInv ⟨[], w.initFiles, [], 0, []⟩ := ⟨rfl, rfl⟩
  exact (foldl_preserve delayInv (processPage w fil)
    (fun st p h => processPage_delay w fil st p h) _ _ h0).1

/-! ### Claim C10: non-empty base filenames -/

/-- The filename-length invariant: every written path's file name is longer
than the bare `.txt` extension. -/
def writeLenInv (st : RunState) : Prop :=
  ∀ (p : Nat) (n : String), Event.write (p, n) ∈ st.events → 4 < n.length

lemma processArticle_writeLen (w : World) (pg : Nat) (it : ListingItem) :
    ∀ st, writeLenInv st → writeLenInv (processArticle w pg st it) := by
  intro st h
  rcases processArticle_cases w pg st it with hc | ⟨_, hc⟩ | ⟨_, fp, r, hfp, hc⟩
  · rw [hc]; exact h
  · rw [hc]
    intro p n hm
    rcases List.mem_append.mp hm with hm | hm
    · exact h p n hm
    · rw [List.mem_singleton] at hm
      exact absurd hm (by simp)
  · rw [hc]
    intro p n hm
    rcases List.mem_append.mp hm with hm | hm
    · rcases List.mem_append.mp hm with hm | hm
      · exact h p n hm
      · rw [List.mem_singleton] at hm
        exact absurd hm (by simp)
    · rcases List.mem_cons.mp hm with hm | hm
      · injection hm with h'
        rw [← h'] at hfp
        exact hfp
      · rw [List.mem_singleton] at hm
        exact absurd hm (by simp)

lemma processPage_writeLen (w : World) (fil : String) :
    ∀ st p, writeLenInv st → writeLenInv (processPage w fil st p) := by
  intro st p h
  have hlist : writeLenInv { st with events := st.events
      ++ [Event.fetchListing p] } := by
    intro p' n hm
    rcases List.mem_append.mp hm with hm | hm
    · exact h p' n hm
    · rw [List.mem_singleton] at hm
      exact absurd hm (by simp)
  rcases processPage_cases w fil st p with hc | hc | ⟨matched, hc⟩
  · rw [hc]; exact hlist
  · rw [hc]
    intro p' n hm
    rcases List.mem_append.mp hm with hm | hm
    · exact hlist p' n hm
    · rw [List.mem_singleton] at hm
      exact absurd hm (by simp)
  · rw [hc]
    exact foldl_preserve writeLenInv (processArticle w p)
      (fun st' it h' => processArticle_writeLen w p it st' h') matched _ hlist

/-- Claim C10.  The base name actually used for a written `.txt` file is
never empty: the orchestrator substitutes the literal `"article"` whenever
`sanitize_filename` returns the empty string, so every written file name is
strictly longer than the bare `.txt` extension. -/
theorem c10_thm :
    (∀ t : String, (fnameFor t == "") = false)
      ∧ (∀ t : String, sanitize_filename t = "" → fnameFor t = "article")
      ∧ (∀ (w : World) (pages : Nat) (fil : String) (p : Nat) (n : String),
          Event.write (p, n) ∈ (scrape_nature w pages fil).events
            → 4 < n.length) := by
  refine ⟨?_, ?_, ?_⟩
  · intro t
    rw [beq_eq_false_iff_ne]
    intro he
    have hl := fnameFor_length t
    rw [he] at hl
    exact absurd hl (by decide)
  · intro t h
    unfold fnameFor
    rw [if_pos h]
  · intro w pages fil
    have h0 : writeLenInv ⟨[], w.initFiles, [], 0, []⟩ := by
      intro p n hm
      exact absurd hm (List.not_mem_nil _)
    exact foldl_preserve writeLenInv (processPage w fil)
      (fun st p h => processPage_writeLen w fil st p h) _ _ h0

/-- Claim C10, witness: `". ."` sanitizes to the empty string, the
orchestrator substitutes `"article"`, and the concrete run's written file
name `T.txt` is longer than the bare extension. -/
theorem c10_witness :
    fnameFor ". ." = "article" ∧ 4 < ("T.txt" : String).length := by
  constructor
  · exact c10_thm.2.1 ". ." (by decide)
  · exact c10_thm.2.2 wOnePage 1 "" 1 "T.txt" (by decide)

end NatureScraper
